import Mathlib

/-!
# Verification of the `sn_consensus` vote engine

A shallow embedding of `src/src/consensus.rs` (the `Consensus<T>` vote engine)
together with the parts of the vote data model it depends on.

The repository ships only `consensus.rs`; the vote data model
(`Ballot` / `Vote` / `SignedVote` with `proposals`, `unpack_votes`,
`supersedes`, `simplify`, `is_super_majority_ballot`) lives in a `vote`
module that is not part of the sources, so those definitions are modelled
from the specification (marked `Modelled from the spec:` below).  Everything
in the `Consensus` namespace is a direct translation of `consensus.rs`.

Representation choices:
* machine integers (`usize`, `u64`) are `Nat`; the one subtraction in
  `is_split_vote` is Rust `usize` subtraction, modelled with truncated
  natural subtraction, and separately with a checked variant (see `C9`);
* `BTreeMap<NodeId, SignedVote<T>>` is an association list with unique keys
  (first-occurrence lookup); `BTreeSet` values are lists, canonicalised into
  sorted duplicate-free lists where set equality is compared;
* `Result<V, Error>` is `Except Error V`; vote construction and signing
  cannot fail in the model (bincode serialisation is modelled total).
-/

namespace SnConsensus

abbrev NodeId := Nat

abbrev Generation := Nat

/-- Modelled from the spec: the threshold-signature adapter is external
(`blsttc` in the code).  A signature share is modelled as the pair of the
signer's node id and a digest of the signed bytes; `verify` holds exactly
when the share equals the claimed signer's id paired with the digest of the
message.  The digest functions themselves are carried in the engine state
(see `Consensus.hash_vote` / `Consensus.hash_prop`). -/
abbrev SigShare := Nat × Nat

/-- The error cases of `consensus.rs` (`crate::Error`), restricted to the
variants this module can produce. -/
inductive Error where
  | InvalidElderSignature
  | MergedVotesMustBeFromSameGen (child_gen : Generation) (merge_gen : Generation)
  | SuperMajorityBallotIsNotSuperMajority
  | SuperMajorityProposalsDoesNotMatchVoteProposals
  | ExistingVoteIncompatibleWithNewVote
  deriving DecidableEq

instance {ε α : Type} [DecidableEq ε] [DecidableEq α] : DecidableEq (Except ε α) := fun a b =>
  match a, b with
  | .ok x, .ok y =>
    if h : x = y then isTrue (by rw [h]) else isFalse (by intro hh; cases hh; exact h rfl)
  | .ok _, .error _ => isFalse (fun h => Except.noConfusion h)
  | .error _, .ok _ => isFalse (fun h => Except.noConfusion h)
  | .error x, .error y =>
    if h : x = y then isTrue (by rw [h]) else isFalse (by intro hh; cases hh; exact h rfl)

mutual
/-- Modelled from the spec: `Ballot` is the tagged union
`Propose(T) | Merge(set of SignedVote) | SuperMajority{votes, proposals}`
(§3 of the spec); the enclosed vote sets are represented as lists and the
`proposals` map `T → (NodeId, signature-share)` as an association list. -/
inductive Ballot (T : Type) : Type where
  | Propose (t : T)
  | Merge (votes : List (SignedVote T))
  | SuperMajority (votes : List (SignedVote T)) (proposals : List (T × NodeId × SigShare))

/-- Modelled from the spec: `Vote = {generation, ballot}`. -/
inductive Vote (T : Type) : Type where
  | mk (gen : Generation) (ballot : Ballot T)

/-- Modelled from the spec: `SignedVote = {voter, signature-share, vote}`. -/
inductive SignedVote (T : Type) : Type where
  | mk (voter : NodeId) (sig : SigShare) (vote : Vote T)
end

variable {T : Type}

def Vote.gen : Vote T → Generation
  | .mk g _ => g

def Vote.ballot : Vote T → Ballot T
  | .mk _ b => b

def SignedVote.voter : SignedVote T → NodeId
  | .mk v _ _ => v

def SignedVote.sig : SignedVote T → SigShare
  | .mk _ s _ => s

def SignedVote.vote : SignedVote T → Vote T
  | .mk _ _ vt => vt

section DecEq

variable [DecidableEq T]

mutual
def Ballot.decEq : (a b : Ballot T) → Decidable (a = b)
  | .Propose x, .Propose y =>
    if h : x = y then isTrue (by rw [h]) else isFalse (by intro hh; cases hh; exact h rfl)
  | .Propose _, .Merge _ => isFalse (fun h => Ballot.noConfusion h)
  | .Propose _, .SuperMajority _ _ => isFalse (fun h => Ballot.noConfusion h)
  | .Merge _, .Propose _ => isFalse (fun h => Ballot.noConfusion h)
  | .Merge xs, .Merge ys =>
    match SignedVote.decEqList xs ys with
    | isTrue h => isTrue (by rw [h])
    | isFalse h => isFalse (by intro hh; cases hh; exact h rfl)
  | .Merge _, .SuperMajority _ _ => isFalse (fun h => Ballot.noConfusion h)
  | .SuperMajority _ _, .Propose _ => isFalse (fun h => Ballot.noConfusion h)
  | .SuperMajority _ _, .Merge _ => isFalse (fun h => Ballot.noConfusion h)
  | .SuperMajority xs ps, .SuperMajority ys qs =>
    match SignedVote.decEqList xs ys with
    | isTrue h =>
      if h2 : ps = qs then isTrue (by rw [h, h2])
      else isFalse (by intro hh; cases hh; exact h2 rfl)
    | isFalse h => isFalse (by intro hh; cases hh; exact h rfl)
termination_by structural a => a

def Vote.decEq : (a b : Vote T) → Decidable (a = b)
  | .mk g1 b1, .mk g2 b2 =>
    if h : g1 = g2 then
      match Ballot.decEq b1 b2 with
      | isTrue h2 => isTrue (by rw [h, h2])
      | isFalse h2 => isFalse (by intro hh; cases hh; exact h2 rfl)
    else isFalse (by intro hh; cases hh; exact h rfl)
termination_by structural a => a

def SignedVote.decEq : (a b : SignedVote T) → Decidable (a = b)
  | .mk v1 s1 vt1, .mk v2 s2 vt2 =>
    if h : v1 = v2 ∧ s1 = s2 then
      match Vote.decEq vt1 vt2 with
      | isTrue h2 => isTrue (by rw [h.1, h.2, h2])
      | isFalse h2 => isFalse (by intro hh; cases hh; exact h2 rfl)
    else isFalse (by intro hh; cases hh; exact h ⟨rfl, rfl⟩)
termination_by structural a => a

def SignedVote.decEqList : (xs ys : List (SignedVote T)) → Decidable (xs = ys)
  | [], [] => isTrue rfl
  | [], _ :: _ => isFalse (fun h => List.noConfusion h)
  | _ :: _, [] => isFalse (fun h => List.noConfusion h)
  | x :: xs, y :: ys =>
    match SignedVote.decEq x y with
    | isTrue h =>
      match SignedVote.decEqList xs ys with
      | isTrue h2 => isTrue (by rw [h, h2])
      | isFalse h2 => isFalse (by intro hh; cases hh; exact h2 rfl)
    | isFalse h => isFalse (by intro hh; cases hh; exact h rfl)
termination_by structural xs => xs
end

instance : DecidableEq (Ballot T) := Ballot.decEq

instance : DecidableEq (Vote T) := Vote.decEq

instance : DecidableEq (SignedVote T) := SignedVote.decEq

end DecEq

mutual
/-- Modelled from the spec: `unpack(signed_vote)` is "the recursive
flattening of a signed vote into the full set of elementary signed votes it
transitively references (including itself)" (§3).  Children are the votes
enclosed in a `Merge` or `SuperMajority` ballot. -/
def SignedVote.unpack_votes : SignedVote T → List (SignedVote T)
  | .mk voter sig vote => .mk voter sig vote :: Vote.unpack_children vote
termination_by structural sv => sv

def Vote.unpack_children : Vote T → List (SignedVote T)
  | .mk _ b => Ballot.unpack_child_list b
termination_by structural v => v

def Ballot.unpack_child_list : Ballot T → List (SignedVote T)
  | .Propose _ => []
  | .Merge vs => SignedVote.unpack_list vs
  | .SuperMajority vs _ => SignedVote.unpack_list vs
termination_by structural b => b

def SignedVote.unpack_list : List (SignedVote T) → List (SignedVote T)
  | [] => []
  | v :: vs => v.unpack_votes ++ SignedVote.unpack_list vs
termination_by structural l => l
end

mutual
/-- A size measure on signed votes (proof infrastructure for the
well-foundedness of the `supersedes` containment order). -/
def SignedVote.weight : SignedVote T → Nat
  | .mk _ _ (.mk _ b) => 1 + Ballot.weightB b
termination_by structural sv => sv

def Ballot.weightB : Ballot T → Nat
  | .Propose _ => 0
  | .Merge vs => SignedVote.weight_list vs
  | .SuperMajority vs _ => SignedVote.weight_list vs
termination_by structural b => b

def SignedVote.weight_list : List (SignedVote T) → Nat
  | [] => 0
  | v :: vs => SignedVote.weight v + SignedVote.weight_list vs
termination_by structural l => l
end

/-- Modelled from the spec: a vote "carries a SuperMajority ballot" exactly
when its ballot uses the `SuperMajority` constructor. -/
def Vote.is_super_majority_ballot : Vote T → Bool
  | .mk _ (.SuperMajority _ _) => true
  | _ => false

section Ordered

variable [LinearOrder T]

/-- Insertion into a sorted duplicate-free list, the model of inserting into
a `BTreeSet<T>`. -/
def insert_sorted (a : T) : List T → List T
  | [] => [a]
  | b :: l => if a < b then a :: b :: l else if a = b then b :: l else b :: insert_sorted a l

/-- Canonicalise a list into the sorted duplicate-free list of its elements,
the model of `BTreeSet::from_iter`. -/
def to_sorted_set (l : List T) : List T := l.foldr insert_sorted []

mutual
/-- Modelled from the spec: `proposals(vote)` is "the recursively flattened
set of T values reachable from a vote's ballot (through Merge/SuperMajority
children down to Propose leaves)" (§3).  `raw` collects the leaves, the
public functions canonicalise into a sorted set. -/
def Ballot.raw_proposals : Ballot T → List T
  | .Propose t => [t]
  | .Merge vs => SignedVote.raw_proposals_list vs
  | .SuperMajority vs _ => SignedVote.raw_proposals_list vs
termination_by structural b => b

def SignedVote.raw_proposals_list : List (SignedVote T) → List T
  | [] => []
  | .mk _ _ (.mk _ b) :: vs => Ballot.raw_proposals b ++ SignedVote.raw_proposals_list vs
termination_by structural l => l
end

def Ballot.proposals (b : Ballot T) : List T := to_sorted_set b.raw_proposals

def Vote.proposals (v : Vote T) : List T := v.ballot.proposals

def SignedVote.proposals (sv : SignedVote T) : List T := sv.vote.proposals

/-- Modelled from the spec: `supersedes` is the partial order between votes
expressing informational progress (§3, §4.1); the spec requires it to be
antisymmetric and transitive (§8) and leaves the exact comparison to the
implementation.  It is modelled as transitive containment: a vote supersedes
every signed vote among its transitively unpacked constituents (including
itself). -/
def SignedVote.supersedes (a b : SignedVote T) : Bool :=
  decide (b ∈ a.unpack_votes)

/-- Modelled from the spec: `simplify` canonicalises a ballot; "exact
normalization rules are an implementation choice" (§4.1), modelled as the
identity normal form. -/
def Ballot.simplify (b : Ballot T) : Ballot T := b

end Ordered

/-! ## The vote map

`BTreeMap<NodeId, SignedVote<T>>` is modelled as an association list with
first-occurrence lookup; engine-built maps keep at most one entry per key
(claim C4 proves that `log_signed_vote` preserves this). -/

/-- The engine's vote map `BTreeMap<NodeId, SignedVote<T>>`. -/
abbrev VoteMap (T : Type) := List (NodeId × SignedVote T)

def mapLookup : VoteMap T → NodeId → Option (SignedVote T)
  | [], _ => none
  | (k, v) :: rest, w => if k = w then some v else mapLookup rest w

/-- `BTreeMap::values()` as a list. -/
def mapValues (m : VoteMap T) : List (SignedVote T) := m.map Prod.snd

def mapContains (m : VoteMap T) (k : NodeId) : Bool := (mapLookup m k).isSome

/-- Keys are pairwise distinct: the map holds at most one vote per voter. -/
def mapNodupKeys (m : VoteMap T) : Prop := (m.map Prod.fst).Nodup

instance (m : VoteMap T) : Decidable (mapNodupKeys m) :=
  inferInstanceAs (Decidable (List.Nodup _))

/-- Proof-infrastructure predicate: the map already holds, for the voter of
`v`, an entry that `v` cannot strictly improve (so re-processing `v` leaves
the map unchanged). -/
def GoodFor [LinearOrder T] (v : SignedVote T) (m : VoteMap T) : Prop :=
  ∃ e, mapLookup m v.voter = some e ∧ (v.supersedes e = true → v = e)

/-- One iteration of the loop body of `log_signed_vote`:
`self.votes.entry(vote.voter).or_insert_with(|| vote.clone())` followed by
`if vote.supersedes(existing_vote) { *existing_vote = vote.clone() }`. -/
def logEntry [LinearOrder T] (c : SignedVote T) : VoteMap T → VoteMap T
  | [] => [(c.voter, c)]
  | (k, e) :: rest =>
    if k = c.voter then (k, if c.supersedes e then c else e) :: rest
    else (k, e) :: logEntry c rest

/-! ## The consensus engine (`consensus.rs`) -/

/-- The `Consensus<T>` struct.  `elders : PublicKeySet` is represented by
what the code reads from it: `elders.threshold()` (the field `threshold`)
and the per-member public key shares (the modelled digest functions);
`secret_key : (NodeId, SecretKeyShare)` is represented by the node id plus
the same digest functions (see `SigShare`). -/
structure Consensus (T : Type) where
  threshold : Nat
  n_elders : Nat
  id : NodeId
  hash_vote : Vote T → Nat
  hash_prop : T → Nat
  votes : VoteMap T

namespace Consensus

variable [LinearOrder T]

/-- `verify_sig_share` for a message that is a whole `Vote` (the share must
have been produced by the claimed elder over the serialised message). -/
def verify_vote_sig (c : Consensus T) (msg : Vote T) (elder : NodeId) (sig : SigShare) :
    Except Error Unit :=
  if sig = (elder, c.hash_vote msg) then .ok () else .error .InvalidElderSignature

/-- `verify_sig_share` for a message that is a single proposition. -/
def verify_prop_sig (c : Consensus T) (msg : T) (elder : NodeId) (sig : SigShare) :
    Except Error Unit :=
  if sig = (elder, c.hash_prop msg) then .ok () else .error .InvalidElderSignature

/-- `sign` for a `Vote` message: this node's share over the serialised vote. -/
def sign_vote_msg (c : Consensus T) (msg : Vote T) : SigShare := (c.id, c.hash_vote msg)

/-- `sign` for a proposition message. -/
def sign_prop_msg (c : Consensus T) (msg : T) : SigShare := (c.id, c.hash_prop msg)

/-- `sign_vote`: wrap a vote with this node's id and signature share.  (In
the code this returns `Result`, failing only on serialisation; the model's
serialisation is total.) -/
def sign_vote (c : Consensus T) (vote : Vote T) : SignedVote T :=
  .mk c.id (c.sign_vote_msg vote) vote

/-- `log_signed_vote`: fold the loop body over the unpacked constituents of
the delivered vote. -/
def log_signed_vote (c : Consensus T) (signed_vote : SignedVote T) : Consensus T :=
  { c with votes := signed_vote.unpack_votes.foldl (fun m v => logEntry v m) c.votes }

/-- `cast_vote`: log this node's own new vote and hand it back. -/
def cast_vote (c : Consensus T) (signed_vote : SignedVote T) : SignedVote T × Consensus T :=
  (signed_vote, c.log_signed_vote signed_vote)

/-- One iteration of the `count_votes` loop:
`let c = count.entry(proposals).or_default(); *c += 1`. -/
def count_entry [LinearOrder T] (key : List T) : List (List T × Nat) → List (List T × Nat)
  | [] => [(key, 1)]
  | (k, n) :: rest => if k = key then (k, n + 1) :: rest else (k, n) :: count_entry key rest

/-- `count_votes`: group the given signed votes by their proposal set and
count each group (a `BTreeMap<BTreeSet<T>, usize>`, modelled as an
association list keyed by canonical proposal sets). -/
def count_votes (votes : List (SignedVote T)) : List (List T × Nat) :=
  votes.foldl (fun acc v => count_entry v.proposals acc) []

/-- `counts.values().max().cloned().unwrap_or_default()`. -/
def listMax (l : List Nat) : Nat := l.foldr max 0

/-- `Consensus::proposals`: the set of all propositions across a vote set. -/
def proposals (votes : List (SignedVote T)) : List T :=
  to_sorted_set (votes.flatMap SignedVote.proposals)

/-- The set of distinct signers of a vote set
(`BTreeSet::from_iter(votes.iter().map(|v| v.voter))`). -/
def distinct_voters (votes : List (SignedVote T)) : List NodeId :=
  to_sorted_set (votes.map SignedVote.voter)

/-- `is_split_vote`.  `self.n_elders - voters.len()` is Rust `usize`
subtraction, modelled here with truncated natural subtraction; claim C9
treats the underflowing case with the checked variant below. -/
def is_split_vote (c : Consensus T) (votes : List (SignedVote T)) : Bool :=
  let counts := count_votes votes
  let most_votes := listMax (counts.map Prod.snd)
  let voters := distinct_voters votes
  let remaining_voters := c.n_elders - voters.length
  let predicted_votes := most_votes + remaining_voters
  decide (c.threshold < voters.length) && decide (predicted_votes ≤ c.threshold)

/-- `is_split_vote` with the `usize` subtraction `n_elders - voters.len()`
made explicit: `none` exactly when the subtraction underflows. -/
def is_split_vote_checked (c : Consensus T) (votes : List (SignedVote T)) : Option Bool :=
  let counts := count_votes votes
  let most_votes := listMax (counts.map Prod.snd)
  let voters := distinct_voters votes
  if voters.length ≤ c.n_elders then
    let remaining_voters := c.n_elders - voters.length
    let predicted_votes := most_votes + remaining_voters
    some (decide (c.threshold < voters.length) && decide (predicted_votes ≤ c.threshold))
  else
    none

/-- `is_super_majority`: the largest group of agreeing proposal sets is
strictly larger than the threshold. -/
def is_super_majority (c : Consensus T) (votes : List (SignedVote T)) : Bool :=
  let most_votes := listMax ((count_votes votes).map Prod.snd)
  decide (c.threshold < most_votes)

/-- `is_super_majority_over_super_majorities`: restrict to votes whose
ballot is itself a `SuperMajority`, and ask for a supermajority among them. -/
def is_super_majority_over_super_majorities (c : Consensus T) (votes : List (SignedVote T)) :
    Bool :=
  let sm_votes := votes.filter (fun v => v.vote.is_super_majority_ballot)
  let count_of_agreeing_super_majorities := listMax ((count_votes sm_votes).map Prod.snd)
  decide (c.threshold < count_of_agreeing_super_majorities)

/-- `build_super_majority_vote`: wrap the full current vote set in a
`SuperMajority` ballot, with one witnessing signature of this node per
distinct proposition, and sign the wrapper. -/
def build_super_majority_vote (c : Consensus T) (gen : Generation) : SignedVote T :=
  let votes := mapValues c.votes
  let props := (proposals votes).map (fun p => (p, (c.id, c.sign_prop_msg p)))
  let ballot := (Ballot.SuperMajority votes props).simplify
  c.sign_vote (.mk gen ballot)

/-- The `VoteResponse` returned by `handle_signed_vote`. -/
inductive Response (T : Type) where
  | WaitingForMoreVotes
  | Broadcast (vote : SignedVote T)
  | Decided (vote : SignedVote T)

instance [DecidableEq T] : DecidableEq (Response T) := fun a b =>
  match a, b with
  | .WaitingForMoreVotes, .WaitingForMoreVotes => isTrue rfl
  | .WaitingForMoreVotes, .Broadcast _ => isFalse (fun h => Response.noConfusion h)
  | .WaitingForMoreVotes, .Decided _ => isFalse (fun h => Response.noConfusion h)
  | .Broadcast _, .WaitingForMoreVotes => isFalse (fun h => Response.noConfusion h)
  | .Broadcast x, .Broadcast y =>
    if h : x = y then isTrue (by rw [h]) else isFalse (by intro hh; cases hh; exact h rfl)
  | .Broadcast _, .Decided _ => isFalse (fun h => Response.noConfusion h)
  | .Decided _, .WaitingForMoreVotes => isFalse (fun h => Response.noConfusion h)
  | .Decided _, .Broadcast _ => isFalse (fun h => Response.noConfusion h)
  | .Decided x, .Decided y =>
    if h : x = y then isTrue (by rw [h]) else isFalse (by intro hh; cases hh; exact h rfl)

/-- `handle_signed_vote`, state-passing: log the incoming vote, then walk
the branch cascade over the full current vote map.  (In the code the
`Result` can only fail through signing, which the model makes total.) -/
def handle_signed_vote (c : Consensus T) (signed_vote : SignedVote T) (gen : Generation) :
    Response T × Consensus T :=
  let c1 := c.log_signed_vote signed_vote
  if c1.is_split_vote (mapValues c1.votes) then
    let merge_vote : Vote T := .mk gen (Ballot.Merge (mapValues c1.votes)).simplify
    let signed_merge_vote := c1.sign_vote merge_vote
    match mapLookup c1.votes c1.id with
    | some our_vote =>
      if our_vote.proposals = signed_merge_vote.proposals then
        (.WaitingForMoreVotes, c1)
      else
        let cast := c1.cast_vote signed_merge_vote
        (.Broadcast cast.1, cast.2)
    | none =>
      let cast := c1.cast_vote signed_merge_vote
      (.Broadcast cast.1, cast.2)
  else if c1.is_super_majority_over_super_majorities (mapValues c1.votes) then
    (.Decided (c1.build_super_majority_vote gen), c1)
  else if c1.is_super_majority (mapValues c1.votes) then
    match mapLookup c1.votes c1.id with
    | some our_vote =>
      if our_vote.vote.is_super_majority_ballot then
        (.WaitingForMoreVotes, c1)
      else
        let cast := c1.cast_vote (c1.build_super_majority_vote gen)
        (.Broadcast cast.1, cast.2)
    | none =>
      let cast := c1.cast_vote (c1.build_super_majority_vote gen)
      (.Broadcast cast.1, cast.2)
  else if !(mapContains c1.votes c1.id) then
    let cast := c1.cast_vote (c1.sign_vote (.mk gen signed_vote.vote.ballot))
    (.Broadcast cast.1, cast.2)
  else
    (.WaitingForMoreVotes, c1)

/-! ## The validator -/

/-- `validate_vote_supersedes_existing_vote`: if a vote is already logged
for this voter, the new and the existing vote must be comparable under
`supersedes`. -/
def validate_vote_supersedes_existing_vote (c : Consensus T) (signed_vote : SignedVote T) :
    Except Error Unit :=
  match mapLookup c.votes signed_vote.voter with
  | none => .ok ()
  | some existing =>
    if !(signed_vote.supersedes existing) && !(existing.supersedes signed_vote) then
      .error .ExistingVoteIncompatibleWithNewVote
    else
      .ok ()

mutual
/-- `validate_signed_vote`: signature share, then the ballot, then the
conflict check against the logged vote of the same voter. -/
def validate_signed_vote (c : Consensus T) (signed_vote : SignedVote T) : Except Error Unit :=
  match signed_vote with
  | .mk voter sig vote =>
    match c.verify_vote_sig vote voter sig with
    | .error e => .error e
    | .ok () =>
      match c.validate_vote vote with
      | .error e => .error e
      | .ok () => c.validate_vote_supersedes_existing_vote (.mk voter sig vote)
termination_by structural signed_vote

/-- `validate_vote`: dispatch on the ballot kind. -/
def validate_vote (c : Consensus T) (vote : Vote T) : Except Error Unit :=
  match vote with
  | .mk gen ballot =>
    match ballot with
    | .Propose _ => .ok ()
    | .Merge votes => c.validate_child_votes gen votes
    | .SuperMajority votes props =>
      if !(c.is_super_majority ((votes.flatMap SignedVote.unpack_votes).dedup)) then
        .error .SuperMajorityBallotIsNotSuperMajority
      else if (Ballot.SuperMajority votes props : Ballot T).proposals
          ≠ to_sorted_set (props.map Prod.fst) then
        .error .SuperMajorityProposalsDoesNotMatchVoteProposals
      else if props.any (fun pns =>
          !(c.verify_prop_sig pns.1 pns.2.1 pns.2.2).toBool) then
        .error .InvalidElderSignature
      else
        c.validate_child_votes gen votes
termination_by structural vote

/-- The per-child loop shared by the `Merge` and `SuperMajority` branches:
each child must carry the parent's generation and recursively validate. -/
def validate_child_votes (c : Consensus T) (merge_gen : Generation) :
    List (SignedVote T) → Except Error Unit
  | [] => .ok ()
  | child :: rest =>
    if child.vote.gen ≠ merge_gen then
      .error (.MergedVotesMustBeFromSameGen child.vote.gen merge_gen)
    else
      match c.validate_signed_vote child with
      | .error e => .error e
      | .ok () => c.validate_child_votes merge_gen rest
termination_by structural l => l
end

/-! ## The spec-side description of `handle_signed_vote` (claim C1)

Written from the words of claim C1 and spec §4.3 step 2, to be compared
with the translation `handle_signed_vote` above: log the incoming vote
first, then evaluate (a) split vote, (b) supermajority over
supermajorities, (c) supermajority, (d) no own vote yet, (e) waiting — in
that strict priority order over the full current vote map, with the
broadcast branches also logging the vote they return. -/

/-- Claim C1 / spec §4.3: the priority cascade of `handle_signed_vote`
written from the specification's words. -/
def handle_signed_vote_spec (c : Consensus T) (incoming : SignedVote T) (gen : Generation) :
    Response T × Consensus T :=
  -- 1. log the incoming vote (and its transitively unpacked constituents)
  let logged := c.log_signed_vote incoming
  let current := mapValues logged.votes
  if logged.is_split_vote current then
    -- (a) build a merge vote over all currently logged votes; if this node
    -- already has a logged vote with the same proposal set, wait, else
    -- log it and broadcast it
    let merge := logged.sign_vote (.mk gen (Ballot.Merge current).simplify)
    match mapLookup logged.votes logged.id with
    | some our_vote =>
      if our_vote.proposals = merge.proposals then
        (.WaitingForMoreVotes, logged)
      else
        (.Broadcast merge, logged.log_signed_vote merge)
    | none => (.Broadcast merge, logged.log_signed_vote merge)
  else if logged.is_super_majority_over_super_majorities current then
    -- (b) decided, with a freshly built SuperMajority vote (not logged)
    (.Decided (logged.build_super_majority_vote gen), logged)
  else if logged.is_super_majority current then
    -- (c) wait if our logged vote already carries a SuperMajority ballot,
    -- else log and broadcast a newly built SuperMajority vote
    match mapLookup logged.votes logged.id with
    | some our_vote =>
      if our_vote.vote.is_super_majority_ballot then
        (.WaitingForMoreVotes, logged)
      else
        let sm := logged.build_super_majority_vote gen
        (.Broadcast sm, logged.log_signed_vote sm)
    | none =>
      let sm := logged.build_super_majority_vote gen
      (.Broadcast sm, logged.log_signed_vote sm)
  else if mapLookup logged.votes logged.id = none then
    -- (d) we have not voted yet: log and broadcast a vote carrying the
    -- incoming vote's ballot at this generation
    let own := logged.sign_vote (.mk gen incoming.vote.ballot)
    (.Broadcast own, logged.log_signed_vote own)
  else
    -- (e) nothing actionable
    (.WaitingForMoreVotes, logged)

end Consensus

/-! ## Concrete scenario states used by witnesses and counterexamples -/

/-- A concrete `Propose` signed vote (generation 0) whose signature share is
valid for the constant-zero digest functions used below. -/
def pv (voter : NodeId) (t : Nat) : SignedVote Nat := .mk voter (voter, 0) (.mk 0 (.Propose t))

/-- A concrete signed vote with an empty `SuperMajority` ballot. -/
def smv (voter : NodeId) : SignedVote Nat := .mk voter (voter, 0) (.mk 0 (.SuperMajority [] []))

/-- A committee of four with threshold 1 where node 1 has logged only a
`Propose` vote of node 0 (the configuration refuting claim C3). -/
def stateC3 : Consensus Nat :=
  { threshold := 1, n_elders := 4, id := 1, hash_vote := fun _ => 0, hash_prop := fun _ => 0,
    votes := [(0, pv 0 7)] }

/-- A committee of four with threshold 1 where node 0 has logged its own
`Propose 7` and node 1's `Propose 8` (a quiescent map: claim C3's witness). -/
def stateC3w : Consensus Nat :=
  { threshold := 1, n_elders := 4, id := 0, hash_vote := fun _ => 0, hash_prop := fun _ => 0,
    votes := [(0, pv 0 7), (1, pv 1 8)] }

/-- An empty-map engine used to evaluate the validator on concrete votes. -/
def stateE : Consensus Nat :=
  { threshold := 0, n_elders := 1, id := 0, hash_vote := fun _ => 0, hash_prop := fun _ => 0,
    votes := [] }

/-- A committee of one (threshold 0) about to receive a merge vote carrying
three distinct signers, driving `n_elders - voters.len()` into underflow
(claim C9). -/
def stateC9 : Consensus Nat :=
  { threshold := 0, n_elders := 1, id := 0, hash_vote := fun _ => 0, hash_prop := fun _ => 0,
    votes := [] }

/-- A merge vote by node 0 carrying `Propose` votes of nodes 1 and 2. -/
def mergeC9 : SignedVote Nat := .mk 0 (0, 0) (.mk 0 (.Merge [pv 1 7, pv 2 8]))

/-- A committee of four with threshold 1 where nodes 1 and 2 have logged
`SuperMajority` votes and node 3's arrives: the decided scenario of claim
C10. -/
def stateC10 : Consensus Nat :=
  { threshold := 1, n_elders := 4, id := 0, hash_vote := fun _ => 0, hash_prop := fun _ => 0,
    votes := [(1, smv 1), (2, smv 2)] }

/-! ## Counting lemmas -/

section Counting

variable {T : Type} [LinearOrder T]

lemma count_entry_sum (key : List T) (acc : List (List T × Nat)) :
    ((Consensus.count_entry key acc).map Prod.snd).sum = ((acc.map Prod.snd)).sum + 1 := by
  induction acc with
  | nil => simp [Consensus.count_entry]
  | cons hd tl ih =>
    obtain ⟨k, n⟩ := hd
    by_cases h : k = key <;> simp [Consensus.count_entry, h, ih] <;> omega

lemma count_votes_go_sum (l : List (SignedVote T)) (acc : List (List T × Nat)) :
    ((l.foldl (fun acc v => Consensus.count_entry v.proposals acc) acc).map Prod.snd).sum
      = (acc.map Prod.snd).sum + l.length := by
  induction l generalizing acc with
  | nil => simp
  | cons v l ih => simp [List.foldl_cons, ih, count_entry_sum]; omega

end Counting

/-! ## Claim theorems: the vote-counting predicates -/

/-- C7: for every vote set S, the counts in the map returned by
`count_votes(S)` (one per distinct proposal set) sum to the cardinality of
S. -/
theorem count_votes_sum_eq_length {T : Type} [LinearOrder T] (votes : List (SignedVote T)) :
    ((Consensus.count_votes votes).map Prod.snd).sum = votes.length := by
  simpa using count_votes_go_sum votes []

/-- C5: `is_split_vote(S)` is true iff the number of distinct signers in S
exceeds the threshold and `best + remaining ≤ t`, where `best` is the
largest group count of `count_votes(S)` and
`remaining = n_elders - |voters|`. -/
theorem is_split_vote_iff {T : Type} [LinearOrder T] (c : Consensus T)
    (votes : List (SignedVote T)) :
    c.is_split_vote votes = true ↔
      (c.threshold < (Consensus.distinct_voters votes).length ∧
        Consensus.listMax ((Consensus.count_votes votes).map Prod.snd)
            + (c.n_elders - (Consensus.distinct_voters votes).length)
          ≤ c.threshold) := by
  simp [Consensus.is_split_vote]

/-- C6: for every vote set S whose distinct signers number at most
`n_elders`, `is_split_vote(S)` and `is_super_majority(S)` never both
hold. -/
theorem split_vote_super_majority_exclusive {T : Type} [LinearOrder T] (c : Consensus T)
    (votes : List (SignedVote T))
    (_hle : (Consensus.distinct_voters votes).length ≤ c.n_elders) :
    ¬(c.is_split_vote votes = true ∧ c.is_super_majority votes = true) := by
  rintro ⟨hs, hm⟩
  simp [Consensus.is_split_vote, Consensus.is_super_majority] at hs hm
  omega

/-- Witness for C6 at a concrete committee and vote set. -/
theorem split_vote_super_majority_exclusive_witness :
    (Consensus.distinct_voters [pv 0 7]).length ≤ stateC3.n_elders ∧
      ¬(stateC3.is_split_vote [pv 0 7] = true ∧ stateC3.is_super_majority [pv 0 7] = true) :=
  ⟨by decide, split_vote_super_majority_exclusive stateC3 [pv 0 7] (by decide)⟩

/-- C9: `is_split_vote` computes `n_elders - voters.len()` with unchecked
natural subtraction; the checked variant underflows exactly when the
distinct voters of the set outnumber the committee, and `handle_signed_vote`
reaches that regime unchecked: logging a merge vote carrying three signers
into a one-member committee puts the full vote map, over which the split
check is evaluated first, into the underflow case. -/
theorem is_split_vote_subtraction_underflow :
    (∀ {T : Type} [LinearOrder T] (c : Consensus T) (votes : List (SignedVote T)),
        c.is_split_vote_checked votes = none
          ↔ c.n_elders < (Consensus.distinct_voters votes).length)
    ∧ (stateC9.log_signed_vote mergeC9).is_split_vote_checked
        (mapValues (stateC9.log_signed_vote mergeC9).votes) = none := by
  constructor
  · intro T _ c votes
    simp only [Consensus.is_split_vote_checked]
    split <;> simp <;> omega

  · decide

/-- C8: the equivocation guard `validate_vote_supersedes_existing_vote`
(step 3 of `validate_signed_vote`) rejects with
`ExistingVoteIncompatibleWithNewVote` exactly when a vote is already logged
for the voter and neither vote supersedes the other; with no logged vote, or
comparable votes, the check passes. -/
theorem conflicting_vote_check_iff {T : Type} [LinearOrder T] (c : Consensus T)
    (sv : SignedVote T) :
    (c.validate_vote_supersedes_existing_vote sv
        = .error .ExistingVoteIncompatibleWithNewVote
      ↔ ∃ existing, mapLookup c.votes sv.voter = some existing ∧
          sv.supersedes existing = false ∧ existing.supersedes sv = false)
    ∧ (c.validate_vote_supersedes_existing_vote sv = .ok ()
      ↔ ∀ existing, mapLookup c.votes sv.voter = some existing →
          sv.supersedes existing = true ∨ existing.supersedes sv = true) := by
  unfold Consensus.validate_vote_supersedes_existing_vote
  cases h : mapLookup c.votes sv.voter with
  | none => simp
  | some existing =>
    constructor
    · constructor
      · intro he
        refine ⟨existing, rfl, ?_⟩
        by_contra hc
        simp [Bool.not_eq_false] at hc
        rcases Bool.eq_false_or_eq_true (sv.supersedes existing) with h1 | h1 <;>
          simp [h1] at he hc <;> simp [hc] at he
      · rintro ⟨e, he, h1, h2⟩
        obtain rfl : existing = e := by injection he
        simp [h1, h2]
    · constructor
      · intro hok e he
        obtain rfl : existing = e := by injection he
        by_contra hc
        push_neg at hc
        simp [Bool.not_eq_true] at hc
        simp [hc.1, hc.2] at hok
      · intro hall
        rcases hall existing rfl with h1 | h1 <;> simp [h1]

/-! ## Claim C2: the order of the SuperMajority-ballot checks -/

/-- C2 (amended): for a `SuperMajority` ballot, `validate_vote` checks the
violations in this order: first that the re-derived supermajority over the
unpacked leaf votes holds, then that the proposal keys equal the vote's own
proposal set, then the per-proposition signatures, and finally the child
votes; in particular when the supermajority re-derivation fails the error is
`SuperMajorityBallotIsNotSuperMajority` regardless of the other checks. -/
theorem validate_super_majority_check_order {T : Type} [LinearOrder T] (c : Consensus T)
    (gen : Generation) (votes : List (SignedVote T)) (props : List (T × NodeId × SigShare)) :
    (c.is_super_majority ((votes.flatMap SignedVote.unpack_votes).dedup) = false →
      c.validate_vote (.mk gen (.SuperMajority votes props))
        = .error .SuperMajorityBallotIsNotSuperMajority)
    ∧ (c.is_super_majority ((votes.flatMap SignedVote.unpack_votes).dedup) = true →
      (Ballot.SuperMajority votes props : Ballot T).proposals
          ≠ to_sorted_set (props.map Prod.fst) →
      c.validate_vote (.mk gen (.SuperMajority votes props))
        = .error .SuperMajorityProposalsDoesNotMatchVoteProposals)
    ∧ (c.is_super_majority ((votes.flatMap SignedVote.unpack_votes).dedup) = true →
      (Ballot.SuperMajority votes props : Ballot T).proposals
          = to_sorted_set (props.map Prod.fst) →
      props.any (fun pns => !(c.verify_prop_sig pns.1 pns.2.1 pns.2.2).toBool) = true →
      c.validate_vote (.mk gen (.SuperMajority votes props))
        = .error .InvalidElderSignature)
    ∧ (c.is_super_majority ((votes.flatMap SignedVote.unpack_votes).dedup) = true →
      (Ballot.SuperMajority votes props : Ballot T).proposals
          = to_sorted_set (props.map Prod.fst) →
      props.any (fun pns => !(c.verify_prop_sig pns.1 pns.2.1 pns.2.2).toBool) = false →
      c.validate_vote (.mk gen (.SuperMajority votes props))
        = c.validate_child_votes gen votes) := by
  refine ⟨fun h1 => ?_, fun h1 h2 => ?_, fun h1 h2 h3 => ?_, fun h1 h2 h3 => ?_⟩
  · simp [Consensus.validate_vote, h1]
  · simp [Consensus.validate_vote, h1, h2]
  · simp [Consensus.validate_vote, h1, h2, h3]
  · simp [Consensus.validate_vote, h1, h2, h3]

/-- C2 counterexample: a `SuperMajority` vote that violates both the
proposal-set self-consistency check and the supermajority re-derivation is
rejected with `SuperMajorityBallotIsNotSuperMajority`, not with the
proposal-set-mismatch error the claim promises. -/
theorem validate_super_majority_order_counterexample :
    stateE.validate_vote (.mk 0 (.SuperMajority [] [(5, 0, (0, 0))]))
        = .error .SuperMajorityBallotIsNotSuperMajority
    ∧ stateE.validate_vote (.mk 0 (.SuperMajority [] [(5, 0, (0, 0))]))
        ≠ .error .SuperMajorityProposalsDoesNotMatchVoteProposals
    ∧ stateE.is_super_majority
        ((([] : List (SignedVote Nat)).flatMap SignedVote.unpack_votes).dedup) = false
    ∧ (Ballot.SuperMajority [] [(5, 0, (0, 0))] : Ballot Nat).proposals
        ≠ to_sorted_set ([((5 : Nat), ((0 : NodeId), ((0 : Nat), (0 : Nat))))].map Prod.fst) := by
  refine ⟨by decide, by decide, by decide, by decide⟩

/-- Witness for C2's amended theorem: each of the four ordered outcomes
reached at a concrete input. -/
theorem validate_super_majority_check_order_witness :
    (stateE.validate_vote (.mk 0 (.SuperMajority [] [(5, 0, (0, 0))]))
        = .error .SuperMajorityBallotIsNotSuperMajority)
    ∧ (stateE.validate_vote (.mk 0 (.SuperMajority [pv 0 7] []))
        = .error .SuperMajorityProposalsDoesNotMatchVoteProposals)
    ∧ (stateE.validate_vote (.mk 0 (.SuperMajority [pv 0 7] [(7, 0, (9, 9))]))
        = .error .InvalidElderSignature)
    ∧ (stateE.validate_vote (.mk 0 (.SuperMajority [pv 0 7] [(7, 0, (0, 0))]))
        = stateE.validate_child_votes 0 [pv 0 7]) :=
  ⟨(validate_super_majority_check_order stateE 0 [] [(5, 0, (0, 0))]).1 (by decide),
   (validate_super_majority_check_order stateE 0 [pv 0 7] []).2.1 (by decide) (by decide),
   (validate_super_majority_check_order stateE 0 [pv 0 7] [(7, 0, (9, 9))]).2.2.1
     (by decide) (by decide) (by decide),
   (validate_super_majority_check_order stateE 0 [pv 0 7] [(7, 0, (0, 0))]).2.2.2
     (by decide) (by decide) (by decide)⟩

/-! ## The shapes a call of `handle_signed_vote` can take -/

/-- Every call of `handle_signed_vote` either waits with the state left at
the initial log, broadcasts a vote it additionally logs, or decides with the
state left at the initial log. -/
lemma handle_cases {T : Type} [LinearOrder T] (c : Consensus T) (sv : SignedVote T)
    (g : Generation) :
    (c.handle_signed_vote sv g = (.WaitingForMoreVotes, c.log_signed_vote sv))
    ∨ (∃ b, c.handle_signed_vote sv g
        = (.Broadcast b, (c.log_signed_vote sv).log_signed_vote b))
    ∨ (c.handle_signed_vote sv g
        = (.Decided ((c.log_signed_vote sv).build_super_majority_vote g),
           c.log_signed_vote sv)) := by
  simp only [Consensus.handle_signed_vote, Consensus.cast_vote]
  split
  · split
    · split
      · left; rfl
      · right; left; exact ⟨_, rfl⟩
    · right; left; exact ⟨_, rfl⟩
  · split
    · right; right; rfl
    · split
      · split
        · split
          · left; rfl
          · right; left; exact ⟨_, rfl⟩
        · right; left; exact ⟨_, rfl⟩
      · split
        · right; left; exact ⟨_, rfl⟩
        · left; rfl

/-- C1: `handle_signed_vote` first logs the incoming vote (with its
transitively unpacked constituents) and then evaluates, over the full
current vote map and in strict priority order, (a) split vote (merge
broadcast, or waiting when this node's logged vote already carries the
merge's proposal set), (b) supermajority over supermajorities (decided),
(c) supermajority (waiting when this node's logged vote already carries a
SuperMajority ballot, else log-and-broadcast a fresh SuperMajority vote),
(d) no own logged vote (log-and-broadcast a vote carrying the incoming
ballot), (e) waiting: it coincides with the cascade
`handle_signed_vote_spec` written from the claim's words. -/
theorem handle_signed_vote_eq_spec {T : Type} [LinearOrder T] (c : Consensus T)
    (sv : SignedVote T) (g : Generation) :
    Consensus.handle_signed_vote c sv g = Consensus.handle_signed_vote_spec c sv g := by
  simp only [Consensus.handle_signed_vote, Consensus.handle_signed_vote_spec,
    Consensus.cast_vote]
  cases h : mapLookup (c.log_signed_vote sv).votes (c.log_signed_vote sv).id <;>
    simp [mapContains, h]

/-- C10: when `handle_signed_vote` takes the Decided branch, the
SuperMajority vote it returns is not logged: the final vote map is exactly
the map produced by the initial logging of the incoming vote. -/
theorem decided_outcome_not_logged {T : Type} [LinearOrder T] (c : Consensus T)
    (sv : SignedVote T) (g : Generation) (x : SignedVote T)
    (h : (c.handle_signed_vote sv g).1 = .Decided x) :
    (c.handle_signed_vote sv g).2 = c.log_signed_vote sv := by
  rcases handle_cases c sv g with hc | ⟨b, hc⟩ | hc
  · rw [hc] at h; exact absurd h (by simp)
  · rw [hc] at h; exact absurd h (by simp)
  · rw [hc]

/-- Witness for C10: three agreeing `SuperMajority` votes in a
four-member committee with threshold 1 produce a Decided outcome, and the
state stays at the initially logged map. -/
theorem decided_outcome_not_logged_witness :
    (stateC10.handle_signed_vote (smv 3) 0).1
      = .Decided ((stateC10.log_signed_vote (smv 3)).build_super_majority_vote 0) ∧
    (stateC10.handle_signed_vote (smv 3) 0).2 = stateC10.log_signed_vote (smv 3) :=
  ⟨by decide,
   decided_outcome_not_logged stateC10 (smv 3) 0
     ((stateC10.log_signed_vote (smv 3)).build_super_majority_vote 0) (by decide)⟩

/-! ## Claim C4: the per-voter vote map invariant -/

section LogLemmas

variable {T : Type} [LinearOrder T]

omit [LinearOrder T] in
lemma mapLookup_eq_none_iff (m : VoteMap T) (w : NodeId) :
    mapLookup m w = none ↔ w ∉ m.map Prod.fst := by
  induction m with
  | nil => simp [mapLookup]
  | cons hd tl ih =>
    obtain ⟨k, e⟩ := hd
    by_cases hk : k = w
    · subst hk; simp [mapLookup]
    · have hwk : ¬w = k := fun h => hk h.symm
      simp [mapLookup, hk, hwk, ih]

lemma logEntry_lookup (v : SignedVote T) (m : VoteMap T) (w : NodeId) :
    mapLookup (logEntry v m) w
      = if w = v.voter then
          some ((mapLookup m v.voter).elim v (fun e => if v.supersedes e then v else e))
        else mapLookup m w := by
  induction m with
  | nil =>
    by_cases hw : w = v.voter
    · subst hw; simp [logEntry, mapLookup]
    · have hvw : ¬v.voter = w := fun h => hw h.symm
      simp [logEntry, mapLookup, hw, hvw]
  | cons hd tl ih =>
    obtain ⟨k, e⟩ := hd
    by_cases hk : k = v.voter
    · by_cases hw : w = v.voter
      · simp [logEntry, mapLookup, hk, hw]
      · have hvw : ¬v.voter = w := fun h => hw h.symm
        simp [logEntry, mapLookup, hk, hw, hvw]
    · by_cases hw2 : k = w
      · have hwv : ¬w = v.voter := fun h => hk (hw2.trans h)
        simp [logEntry, mapLookup, hk, hw2, hwv]
      · simp [logEntry, mapLookup, hk, hw2, ih]

lemma logEntry_keys (v : SignedVote T) (m : VoteMap T) :
    (logEntry v m).map Prod.fst
      = if mapContains m v.voter then m.map Prod.fst else m.map Prod.fst ++ [v.voter] := by
  induction m with
  | nil => simp [logEntry, mapContains, mapLookup]
  | cons hd tl ih =>
    obtain ⟨k, e⟩ := hd
    by_cases hk : k = v.voter
    · simp [logEntry, mapContains, mapLookup, hk]
    · cases hc : (mapLookup tl v.voter).isSome <;>
        simp [logEntry, mapContains, mapLookup, hk, hc, ih]

lemma logEntry_nodupKeys (v : SignedVote T) (m : VoteMap T) (h : mapNodupKeys m) :
    mapNodupKeys (logEntry v m) := by
  unfold mapNodupKeys at *
  rw [logEntry_keys]
  split
  · exact h
  · rename_i hcont
    refine List.Nodup.append h (List.nodup_singleton _) ?_
    intro a ha ha2
    rw [List.mem_singleton] at ha2
    subst ha2
    have : mapLookup m v.voter = none := by
      cases hl : mapLookup m v.voter with
      | none => rfl
      | some e => rw [mapContains, hl] at hcont; simp at hcont
    exact (mapLookup_eq_none_iff m v.voter).1 this ha

lemma log_foldl_nodupKeys (l : List (SignedVote T)) (m : VoteMap T) (h : mapNodupKeys m) :
    mapNodupKeys (l.foldl (fun m v => logEntry v m) m) := by
  induction l generalizing m with
  | nil => exact h
  | cons a l ih => exact ih _ (logEntry_nodupKeys a m h)

end LogLemmas

/-- C4: the vote map keeps at most one vote per voter (`log_signed_vote`
preserves key uniqueness), logging folds the per-constituent step over the
unpacked constituents of the delivered vote, and each step replaces the
voter's existing entry exactly when the processed vote supersedes it,
keeping it unchanged otherwise (inserting when the voter has no entry). -/
theorem log_signed_vote_per_voter_invariant {T : Type} [LinearOrder T] (c : Consensus T)
    (sv : SignedVote T) (hnd : mapNodupKeys c.votes) :
    mapNodupKeys ((c.log_signed_vote sv).votes)
    ∧ (c.log_signed_vote sv).votes
        = sv.unpack_votes.foldl (fun m v => logEntry v m) c.votes
    ∧ (∀ (v : SignedVote T) (m : VoteMap T) (w : NodeId),
        mapLookup (logEntry v m) w
          = if w = v.voter then
              some ((mapLookup m v.voter).elim v (fun e => if v.supersedes e then v else e))
            else mapLookup m w) :=
  ⟨log_foldl_nodupKeys _ _ hnd, rfl, fun v m w => logEntry_lookup v m w⟩

/-- Witness for C4 at a concrete engine state and vote. -/
theorem log_signed_vote_per_voter_invariant_witness :
    mapNodupKeys stateC3.votes ∧
      (mapNodupKeys ((stateC3.log_signed_vote (pv 1 8)).votes)
      ∧ (stateC3.log_signed_vote (pv 1 8)).votes
          = (pv 1 8).unpack_votes.foldl (fun m v => logEntry v m) stateC3.votes
      ∧ (∀ (v : SignedVote Nat) (m : VoteMap Nat) (w : NodeId),
          mapLookup (logEntry v m) w
            = if w = v.voter then
                some ((mapLookup m v.voter).elim v (fun e => if v.supersedes e then v else e))
              else mapLookup m w)) :=
  ⟨by decide, log_signed_vote_per_voter_invariant stateC3 (pv 1 8) (by decide)⟩

/-! ## The containment order underlying `supersedes` -/

section UnpackOrder

variable {T : Type}

lemma unpack_votes_eq (voter : NodeId) (sig : SigShare) (vote : Vote T) :
    (SignedVote.mk voter sig vote).unpack_votes
      = SignedVote.mk voter sig vote :: Vote.unpack_children vote := by
  simp [SignedVote.unpack_votes]

lemma self_mem_unpack (sv : SignedVote T) : sv ∈ sv.unpack_votes := by
  obtain ⟨voter, sig, vote⟩ := sv
  rw [unpack_votes_eq]
  exact List.mem_cons_self _ _

lemma mem_unpack_list {u : SignedVote T} {vs : List (SignedVote T)} :
    u ∈ SignedVote.unpack_list vs ↔ ∃ v ∈ vs, u ∈ v.unpack_votes := by
  induction vs with
  | nil => simp [SignedVote.unpack_list]
  | cons v vs ih => simp [SignedVote.unpack_list, ih]

lemma weight_le_of_mem {v : SignedVote T} {vs : List (SignedVote T)} (h : v ∈ vs) :
    v.weight ≤ SignedVote.weight_list vs := by
  induction vs with
  | nil => cases h
  | cons a vs ih =>
    rcases List.mem_cons.1 h with rfl | h2
    · simp [SignedVote.weight_list]
    · have := ih h2
      simp [SignedVote.weight_list]
      omega

lemma weight_pos (sv : SignedVote T) : 1 ≤ sv.weight := by
  obtain ⟨voter, sig, gen, b⟩ := sv
  simp [SignedVote.weight]

lemma unpack_weight (n : Nat) : ∀ (sv u : SignedVote T), sv.weight ≤ n →
    u ∈ sv.unpack_votes → u = sv ∨ u.weight < sv.weight := by
  induction n with
  | zero =>
    intro sv u hw _
    exact absurd hw (by have := weight_pos sv; omega)
  | succ n ih =>
    rintro ⟨voter, sig, gen, b⟩ u hw hu
    rw [unpack_votes_eq] at hu
    rcases List.mem_cons.1 hu with rfl | hu2
    · exact Or.inl rfl
    · right
      simp only [Vote.unpack_children] at hu2
      cases b with
      | Propose t => simp [Ballot.unpack_child_list] at hu2
      | Merge vs =>
        rw [Ballot.unpack_child_list] at hu2
        obtain ⟨v, hv, huv⟩ := mem_unpack_list.1 hu2
        have h1 : v.weight ≤ SignedVote.weight_list vs := weight_le_of_mem hv
        have hw2 : SignedVote.weight (.mk voter sig (.mk gen (.Merge vs)))
            = 1 + SignedVote.weight_list vs := by simp [SignedVote.weight, Ballot.weightB]
        rw [hw2] at hw ⊢
        have hv_n : v.weight ≤ n := by omega
        rcases ih v u hv_n huv with rfl | hlt <;> omega
      | SuperMajority vs ps =>
        rw [Ballot.unpack_child_list] at hu2
        obtain ⟨v, hv, huv⟩ := mem_unpack_list.1 hu2
        have h1 : v.weight ≤ SignedVote.weight_list vs := weight_le_of_mem hv
        have hw2 : SignedVote.weight (.mk voter sig (.mk gen (.SuperMajority vs ps)))
            = 1 + SignedVote.weight_list vs := by simp [SignedVote.weight, Ballot.weightB]
        rw [hw2] at hw ⊢
        have hv_n : v.weight ≤ n := by omega
        rcases ih v u hv_n huv with rfl | hlt <;> omega

lemma unpack_closed (n : Nat) : ∀ (sv u : SignedVote T), sv.weight ≤ n →
    u ∈ sv.unpack_votes → ∀ d ∈ u.unpack_votes, d ∈ sv.unpack_votes := by
  induction n with
  | zero =>
    intro sv u hw _
    exact absurd hw (by have := weight_pos sv; omega)
  | succ n ih =>
    rintro ⟨voter, sig, gen, b⟩ u hw hu d hd
    rw [unpack_votes_eq] at hu ⊢
    rcases List.mem_cons.1 hu with rfl | hu2
    · rw [unpack_votes_eq] at hd
      exact hd
    · refine List.mem_cons_of_mem _ ?_
      simp only [Vote.unpack_children] at hu2 ⊢
      cases b with
      | Propose t => simp [Ballot.unpack_child_list] at hu2
      | Merge vs =>
        rw [Ballot.unpack_child_list] at hu2 ⊢
        obtain ⟨v, hv, huv⟩ := mem_unpack_list.1 hu2
        have h1 : v.weight ≤ SignedVote.weight_list vs := weight_le_of_mem hv
        have hw2 : SignedVote.weight (.mk voter sig (.mk gen (.Merge vs)))
            = 1 + SignedVote.weight_list vs := by simp [SignedVote.weight, Ballot.weightB]
        rw [hw2] at hw
        have hv_n : v.weight ≤ n := by omega
        exact mem_unpack_list.2 ⟨v, hv, ih v u hv_n huv d hd⟩
      | SuperMajority vs ps =>
        rw [Ballot.unpack_child_list] at hu2 ⊢
        obtain ⟨v, hv, huv⟩ := mem_unpack_list.1 hu2
        have h1 : v.weight ≤ SignedVote.weight_list vs := weight_le_of_mem hv
        have hw2 : SignedVote.weight (.mk voter sig (.mk gen (.SuperMajority vs ps)))
            = 1 + SignedVote.weight_list vs := by simp [SignedVote.weight, Ballot.weightB]
        rw [hw2] at hw
        have hv_n : v.weight ≤ n := by omega
        exact mem_unpack_list.2 ⟨v, hv, ih v u hv_n huv d hd⟩

lemma sup_refl [LinearOrder T] (sv : SignedVote T) : sv.supersedes sv = true := by
  simp [SignedVote.supersedes, self_mem_unpack]

lemma sup_trans [LinearOrder T] {a b d : SignedVote T} (h1 : a.supersedes b = true)
    (h2 : b.supersedes d = true) : a.supersedes d = true := by
  simp only [SignedVote.supersedes, decide_eq_true_eq] at h1 h2 ⊢
  exact unpack_closed a.weight a b le_rfl h1 d h2

lemma sup_antisymm [LinearOrder T] {a b : SignedVote T} (h1 : a.supersedes b = true)
    (h2 : b.supersedes a = true) : a = b := by
  simp only [SignedVote.supersedes, decide_eq_true_eq] at h1 h2
  rcases unpack_weight a.weight a b le_rfl h1 with rfl | hlt1
  · rfl
  · rcases unpack_weight b.weight b a le_rfl h2 with rfl | hlt2
    · rfl
    · omega

end UnpackOrder

/-! ## Idempotence of the logging fold -/

section LogIdem

variable {T : Type} [LinearOrder T]

lemma goodFor_logEntry_self (v : SignedVote T) (m : VoteMap T) : GoodFor v (logEntry v m) := by
  unfold GoodFor
  rw [logEntry_lookup, if_pos rfl]
  cases hl : mapLookup m v.voter with
  | none => exact ⟨v, by simp, fun _ => rfl⟩
  | some e =>
    cases hs : v.supersedes e with
    | true => exact ⟨v, by simp [Option.elim, hs], fun _ => rfl⟩
    | false => exact ⟨e, by simp [Option.elim, hs], fun hc => absurd hc (by simp [hs])⟩

lemma goodFor_logEntry_preserved {v : SignedVote T} {m : VoteMap T} (d : SignedVote T)
    (h : GoodFor v m) : GoodFor v (logEntry d m) := by
  obtain ⟨e, he, himp⟩ := h
  unfold GoodFor
  rw [logEntry_lookup]
  by_cases hdv : v.voter = d.voter
  · rw [if_pos hdv, ← hdv, he]
    simp only [Option.elim]
    cases hs : d.supersedes e with
    | false => exact ⟨e, by simp, himp⟩
    | true =>
      refine ⟨d, by simp, fun hvd => ?_⟩
      have hve : v.supersedes e = true := sup_trans hvd hs
      obtain rfl : v = e := himp hve
      exact (sup_antisymm hs hvd).symm
  · rw [if_neg hdv]
    exact ⟨e, he, himp⟩

lemma goodFor_foldl (l : List (SignedVote T)) {v : SignedVote T} {m : VoteMap T}
    (h : GoodFor v m) : GoodFor v (l.foldl (fun m w => logEntry w m) m) := by
  induction l generalizing m with
  | nil => exact h
  | cons a l ih => exact ih (goodFor_logEntry_preserved a h)

lemma goodFor_all (l : List (SignedVote T)) (m : VoteMap T) :
    ∀ v ∈ l, GoodFor v (l.foldl (fun m w => logEntry w m) m) := by
  induction l generalizing m with
  | nil => intro v hv; cases hv
  | cons a l ih =>
    intro v hv
    rw [List.foldl_cons]
    rcases List.mem_cons.1 hv with rfl | hv2
    · exact goodFor_foldl l (goodFor_logEntry_self v m)
    · exact ih (logEntry a m) v hv2

lemma logEntry_fix : ∀ (m : VoteMap T) (v : SignedVote T), GoodFor v m → logEntry v m = m := by
  intro m
  induction m with
  | nil =>
    intro v h
    obtain ⟨e, he, _⟩ := h
    simp [mapLookup] at he
  | cons hd tl ih =>
    intro v h
    obtain ⟨e, he, himp⟩ := h
    obtain ⟨k, x⟩ := hd
    by_cases hk : k = v.voter
    · simp only [mapLookup, if_pos hk] at he
      obtain rfl : x = e := by injection he
      rw [logEntry, if_pos hk]
      cases hs : v.supersedes x with
      | false => simp
      | true => simp [himp hs]
    · rw [logEntry, if_neg hk]
      simp only [mapLookup, if_neg hk] at he
      rw [ih v ⟨e, he, himp⟩]

lemma log_foldl_fix (l : List (SignedVote T)) (m : VoteMap T)
    (h : ∀ v ∈ l, GoodFor v m) : l.foldl (fun m w => logEntry w m) m = m := by
  induction l with
  | nil => rfl
  | cons a l ih =>
    rw [List.foldl_cons, logEntry_fix m a (h a (List.mem_cons_self a l))]
    exact ih (fun v hv => h v (List.mem_cons_of_mem a hv))

lemma log_foldl_idem (l : List (SignedVote T)) (m : VoteMap T) :
    l.foldl (fun m w => logEntry w m) (l.foldl (fun m w => logEntry w m) m)
      = l.foldl (fun m w => logEntry w m) m :=
  log_foldl_fix l _ (goodFor_all l m)

lemma log_signed_vote_idem (c : Consensus T) (sv : SignedVote T) :
    (c.log_signed_vote sv).log_signed_vote sv = c.log_signed_vote sv := by
  simp only [Consensus.log_signed_vote]
  congr 1
  exact log_foldl_idem _ _

lemma handle_log_absorb (c : Consensus T) (sv : SignedVote T) (g : Generation) :
    (c.log_signed_vote sv).handle_signed_vote sv g = c.handle_signed_vote sv g := by
  simp only [Consensus.handle_signed_vote, log_signed_vote_idem]

lemma handle_waiting_state (c : Consensus T) (sv : SignedVote T) (g : Generation)
    (h : (c.handle_signed_vote sv g).1 = .WaitingForMoreVotes) :
    (c.handle_signed_vote sv g).2 = c.log_signed_vote sv := by
  rcases handle_cases c sv g with hc | ⟨b, hc⟩ | hc
  · rw [hc]
  · rw [hc] at h; exact absurd h (by simp)
  · rw [hc] at h; exact absurd h (by simp)

end LogIdem

/-! ## Claim C3: redelivery of an already-logged vote -/

/-- C3 counterexample: with a four-member committee (threshold 1) where
node 1 has logged exactly node 0's `Propose 7` vote, redelivering that very
vote (it equals the logged entry for its voter) does not return
WaitingForMoreVotes and does change the vote map: the engine takes branch
(d) and casts its own vote. -/
theorem redelivery_counterexample :
    mapLookup stateC3.votes (pv 0 7).voter = some (pv 0 7)
    ∧ (stateC3.handle_signed_vote (pv 0 7) 0).1 ≠ .WaitingForMoreVotes
    ∧ (stateC3.handle_signed_vote (pv 0 7) 0).2.votes ≠ stateC3.votes :=
  ⟨by decide, by decide, by decide⟩

/-- C3 (amended): redelivering a signed vote is idempotent once the engine
has nothing actionable: whenever a call of `handle_signed_vote` returned
WaitingForMoreVotes (its state being the initially logged map), delivering
the same vote again returns WaitingForMoreVotes and leaves the engine state
unchanged.  (A redelivery can still broadcast or decide when the —
unchanged — vote map satisfies an actionable condition, e.g. when this node
has not yet cast its own vote.) -/
theorem redelivery_after_waiting_idempotent {T : Type} [LinearOrder T] (c : Consensus T)
    (sv : SignedVote T) (g : Generation)
    (h : (c.handle_signed_vote sv g).1 = .WaitingForMoreVotes) :
    (c.handle_signed_vote sv g).2 = c.log_signed_vote sv
    ∧ ((c.handle_signed_vote sv g).2).handle_signed_vote sv g
        = (.WaitingForMoreVotes, (c.handle_signed_vote sv g).2) := by
  have h2 := handle_waiting_state c sv g h
  refine ⟨h2, ?_⟩
  rw [h2, handle_log_absorb]
  exact Prod.ext h h2

/-- Witness for C3's amended theorem: a quiescent four-member engine
returns waiting on node 1's logged vote, and redelivery is then a no-op. -/
theorem redelivery_after_waiting_idempotent_witness :
    (stateC3w.handle_signed_vote (pv 1 8) 0).1 = .WaitingForMoreVotes
    ∧ ((stateC3w.handle_signed_vote (pv 1 8) 0).2 = stateC3w.log_signed_vote (pv 1 8)
      ∧ ((stateC3w.handle_signed_vote (pv 1 8) 0).2).handle_signed_vote (pv 1 8) 0
          = (.WaitingForMoreVotes, (stateC3w.handle_signed_vote (pv 1 8) 0).2)) :=
  ⟨by decide, redelivery_after_waiting_idempotent stateC3w (pv 1 8) 0 (by decide)⟩

end SnConsensus
